import Mathlib

/-!
# Verification of the energy-measurement transformation pipeline

A shallow embedding of `src/Pipline.py`, a pandas batch pipeline that
normalizes raw energy meter readings, deduplicates them, filters
all-missing rows, aggregates totals per (date, hour) with a peak
feed-in flag, and summarizes per serial number.

Modelling conventions:
* pandas `NaN` / missing cells are `Option.none`;
* floating-point cell values are modelled as integers `ℤ`: every claim
  under study concerns null-skipping sums, maxima, comparisons and
  ordering, which are uniform in the ordered ring of values, so nothing
  depends on fractional or rounded values;
* a dataframe is a `List` of records, preserving row order;
* `groupby` keeps its pandas default `dropna=True`: rows whose group key
  is missing belong to no group, and group keys are listed in ascending
  sorted order;
* column-wise `sum` skips missing values and returns `0` on an
  all-missing column (pandas default `skipna=True`, `min_count=0`).
-/

namespace Pipline

/-- A parsed timestamp (pandas `datetime64`): a day index together with the
time-of-day components.  `Pipline.py` only ever reads the `hour` component
(`df["timestamp"].dt.hour`, line 27). -/
structure Timestamp where
  dayIdx : Nat
  hour : Nat
  minute : Nat
  deriving DecidableEq, Repr

/-- A record after type normalization (lines 10-18 of `Pipline.py`) and, after
cleaning, a Clean Record.  `serial` is the text cell as loaded (a missing
cell is `none`); the two temporal fields and the three energy fields carry
the missing marker produced by `errors='coerce'`. -/
structure CleanRecord where
  serial : Option String
  timestamp : Option Timestamp
  date : Option Nat
  grid_purchase : Option ℤ
  grid_feedin : Option ℤ
  direct_consumption : Option ℤ
  deriving DecidableEq, Repr

/-- A raw record as delivered by the loader (line 4): all payload cells are
text, an entirely empty cell being `none`. -/
structure RawRecord where
  serial : Option String
  timestamp : String
  date : String
  grid_purchase : String
  grid_feedin : String
  direct_consumption : String
  deriving DecidableEq, Repr

/-- The tolerant parsers used by the Type Normalizer.  `pd.to_numeric` /
`pd.to_datetime` with `errors='coerce'` are total functions from text to
value-or-missing; their exact text-level parsing behaviour lives in the
pandas library, outside this repository, so they are parameters of the
normalization stage. -/
structure Parsers where
  toNumeric : String → Option ℤ
  toDatetime : String → Option Timestamp
  toDate : String → Option Nat

/-- Lines 10-18: coerce each field of one raw record, substituting the
missing marker on parse failure, never raising and never dropping the
record. -/
def normalizeRecord (p : Parsers) (r : RawRecord) : CleanRecord :=
  { serial := r.serial
    timestamp := p.toDatetime r.timestamp
    date := p.toDate r.date
    grid_purchase := p.toNumeric r.grid_purchase
    grid_feedin := p.toNumeric r.grid_feedin
    direct_consumption := p.toNumeric r.direct_consumption }

/-- The Type Normalizer applied to the whole dataframe. -/
def normalize (p : Parsers) (rs : List RawRecord) : List CleanRecord :=
  rs.map (normalizeRecord p)

/-- `hour` derived from the parsed timestamp (line 27:
`df["timestamp"].dt.hour`); missing when the timestamp is missing. -/
def hourOf (r : CleanRecord) : Option Nat :=
  r.timestamp.map Timestamp.hour

/-- First-occurrence deduplication: drop an element equal to an earlier one,
keep the first occurrence, preserve the order of survivors.  `seen` holds
the elements already emitted. -/
def dedupFirstAux {α : Type} [DecidableEq α] (seen : List α) : List α → List α
  | [] => []
  | a :: as =>
    if a ∈ seen then dedupFirstAux seen as
    else a :: dedupFirstAux (a :: seen) as

/-- `df.drop_duplicates()` semantics (line 21), also reused for pandas
group-key collection. -/
def dedupFirst {α : Type} [DecidableEq α] (l : List α) : List α :=
  dedupFirstAux [] l

/-- Line 21: `df = df.drop_duplicates()`. -/
def drop_duplicates (l : List CleanRecord) : List CleanRecord :=
  dedupFirst l

/-- Modelled from the spec's wording of the deduplication policy (§4.3),
stated positionally to pin down which occurrence survives: the element at
position `i` is kept exactly when it is not identical to an element at an
earlier position (one of `l.take i`).  First occurrences always pass this
test, later duplicate occurrences never do, and `filter`/`map` preserve
the relative order of survivors.  Stated independently of the source's
accumulator-based `drop_duplicates` so the two can be proved equal. -/
def keepFirstSpec {α : Type} [DecidableEq α] (l : List α) : List α :=
  (l.enum.filter fun p => decide (p.2 ∉ l.take p.1)).map Prod.snd

/-- A record whose energy payload is not entirely missing: the rows kept by
line 24's `dropna(subset=[...], how='all')`. -/
def hasEnergy (r : CleanRecord) : Bool :=
  r.grid_purchase.isSome || r.grid_feedin.isSome || r.direct_consumption.isSome

/-- Line 24: drop rows with completely missing energy data. -/
def dropAllMissing (l : List CleanRecord) : List CleanRecord :=
  l.filter hasEnergy

/-- The Cleaner (lines 21-24): exact deduplication, then the all-missing
energy filter. -/
def cleaner (l : List CleanRecord) : List CleanRecord :=
  dropAllMissing (drop_duplicates l)

section DedupLemmas

variable {α : Type} [DecidableEq α]

theorem dedupFirstAux_sublist (seen : List α) :
    ∀ l : List α, (dedupFirstAux seen l).Sublist l := by
  intro l
  induction l generalizing seen with
  | nil => simp [dedupFirstAux]
  | cons a as ih =>
    by_cases h : a ∈ seen
    · simpa [dedupFirstAux, h] using (ih seen).trans (List.sublist_cons_self a as)
    · simpa [dedupFirstAux, h] using (ih (a :: seen)).cons₂ a

theorem mem_dedupFirstAux (seen : List α) (x : α) :
    ∀ l : List α, x ∈ dedupFirstAux seen l ↔ x ∈ l ∧ x ∉ seen := by
  intro l
  induction l generalizing seen with
  | nil => simp [dedupFirstAux]
  | cons a as ih =>
    by_cases h : a ∈ seen
    · rw [dedupFirstAux, if_pos h, ih]
      simp only [List.mem_cons]
      by_cases hxa : x = a
      · subst hxa; tauto
      · tauto
    · rw [dedupFirstAux, if_neg h]
      simp only [List.mem_cons, ih]
      by_cases hxa : x = a
      · subst hxa; tauto
      · tauto

theorem dedupFirstAux_nodup (seen : List α) :
    ∀ l : List α, (dedupFirstAux seen l).Nodup := by
  intro l
  induction l generalizing seen with
  | nil => simp [dedupFirstAux]
  | cons a as ih =>
    by_cases h : a ∈ seen
    · simpa [dedupFirstAux, h] using ih seen
    · rw [dedupFirstAux, if_neg h]
      refine List.nodup_cons.mpr ⟨fun hmem => ?_, ih (a :: seen)⟩
      exact ((mem_dedupFirstAux _ a as).mp hmem).2 (List.mem_cons_self a seen)

theorem dedupFirstAux_eq_self (seen : List α) :
    ∀ l : List α, l.Nodup → (∀ x ∈ l, x ∉ seen) → dedupFirstAux seen l = l := by
  intro l
  induction l generalizing seen with
  | nil => intro _ _; rfl
  | cons a as ih =>
    intro hnd hout
    have ha : a ∉ seen := hout a (List.mem_cons_self a as)
    rw [dedupFirstAux, if_neg ha]
    have hnd' := List.nodup_cons.mp hnd
    refine congrArg (a :: ·) (ih (a :: seen) hnd'.2 fun x hx => ?_)
    intro hmem
    rcases List.mem_cons.mp hmem with rfl | hs
    · exact hnd'.1 hx
    · exact hout x (List.mem_cons_of_mem a hx) hs

theorem dedupFirst_sublist (l : List α) : (dedupFirst l).Sublist l :=
  dedupFirstAux_sublist [] l

theorem mem_dedupFirst (x : α) (l : List α) : x ∈ dedupFirst l ↔ x ∈ l := by
  rw [dedupFirst, mem_dedupFirstAux]
  simp

theorem dedupFirst_nodup (l : List α) : (dedupFirst l).Nodup :=
  dedupFirstAux_nodup [] l

theorem dedupFirst_eq_self (l : List α) (h : l.Nodup) : dedupFirst l = l :=
  dedupFirstAux_eq_self [] l h (by simp)

theorem dedupFirstAux_eq_keepFirst :
    ∀ (l : List α) (n : Nat) (pre seen : List α), pre.length = n →
      (∀ x, x ∈ seen ↔ x ∈ pre) →
      dedupFirstAux seen l =
        ((List.enumFrom n l).filter fun p =>
          decide (p.2 ∉ (pre ++ l).take p.1)).map Prod.snd := by
  intro l
  induction l with
  | nil => intro n pre seen _ _; rfl
  | cons a as ih =>
    intro n pre seen hlen hiff
    have htake : (pre ++ a :: as).take n = pre := List.take_left' hlen
    have hpp : (pre ++ [a]) ++ as = pre ++ a :: as := by simp
    by_cases hmem : a ∈ seen
    · have hpre : a ∈ pre := (hiff a).mp hmem
      have hiff' : ∀ x, x ∈ seen ↔ x ∈ pre ++ [a] := by
        intro x
        rw [List.mem_append, List.mem_singleton, hiff x]
        constructor
        · exact fun h => Or.inl h
        · rintro (h | rfl)
          · exact h
          · exact hpre
      have hstep : ((List.enumFrom n (a :: as)).filter fun p =>
            decide (p.2 ∉ (pre ++ a :: as).take p.1))
          = (List.enumFrom (n + 1) as).filter fun p =>
            decide (p.2 ∉ (pre ++ a :: as).take p.1) := by
        rw [List.enumFrom_cons, List.filter_cons]
        simp [htake, hpre]
      rw [dedupFirstAux, if_pos hmem,
        ih (n + 1) (pre ++ [a]) seen (by simp [hlen]) hiff', hpp, hstep]
    · have hpre : a ∉ pre := fun h => hmem ((hiff a).mpr h)
      have hiff' : ∀ x, x ∈ a :: seen ↔ x ∈ pre ++ [a] := by
        intro x
        rw [List.mem_cons, List.mem_append, List.mem_singleton, hiff x]
        tauto
      have hstep : ((List.enumFrom n (a :: as)).filter fun p =>
            decide (p.2 ∉ (pre ++ a :: as).take p.1))
          = (n, a) :: ((List.enumFrom (n + 1) as).filter fun p =>
            decide (p.2 ∉ (pre ++ a :: as).take p.1)) := by
        rw [List.enumFrom_cons, List.filter_cons]
        simp [htake, hpre]
      rw [dedupFirstAux, if_neg hmem,
        ih (n + 1) (pre ++ [a]) (a :: seen) (by simp [hlen]) hiff', hpp, hstep,
        List.map_cons]

theorem dedupFirst_eq_keepFirstSpec (l : List α) :
    dedupFirst l = keepFirstSpec l :=
  dedupFirstAux_eq_keepFirst l 0 [] [] rfl (by simp)

end DedupLemmas

/-- Pandas column `sum` with its defaults (`skipna=True`, `min_count=0`):
missing values are skipped and an all-missing column sums to `0`. -/
def optSum (vals : List (Option ℤ)) : ℤ :=
  (vals.filterMap id).sum

/-- Pandas `Series.max` with `skipna=True`: the maximum of the present
values, missing (`NaN`-like) only for an empty series.  In `Pipline.py` it
is only applied to the never-missing `grid_feedin` totals (line 33). -/
def seriesMax : List ℤ → Option ℤ
  | [] => none
  | v :: vs => some (vs.foldl max v)

/-- An Hourly Bucket: one output row of line 30's
`df.groupby(["date", "hour"], as_index=False)[["grid_purchase",
"grid_feedin"]].sum()`.  The key fields are `Option`-typed because the
input columns are nullable; which keys actually occur is decided by the
`groupby` semantics below. -/
structure HourlyBucket where
  date : Option Nat
  hour : Option Nat
  grid_purchase : ℤ
  grid_feedin : ℤ
  deriving DecidableEq, Repr

/-- An Hourly Bucket after line 33 added the `is_peak_feed_in_hour`
column. -/
structure PeakBucket where
  date : Option Nat
  hour : Option Nat
  grid_purchase : ℤ
  grid_feedin : ℤ
  is_peak_feed_in_hour : Bool
  deriving DecidableEq, Repr

/-- One output row of line 36's `df.groupby('serial')[["grid_purchase",
"grid_feedin"]].sum()`; `groupby`'s default `dropna=True` means only
present serials become keys, so the key is a plain `String`. -/
structure SerialRow where
  serial : String
  grid_purchase : ℤ
  grid_feedin : ℤ
  deriving DecidableEq, Repr

/-- The (date, hour) group keys of line 30's `groupby`: pandas' default
`dropna=True` keeps only rows where both key columns are present, and the
groups are enumerated in ascending key order (`sort=True` default).
Sorting is by date, then hour. -/
def hourlyKeys (l : List CleanRecord) : List (Nat × Nat) :=
  (dedupFirst (l.filterMap fun r =>
    match r.date, hourOf r with
    | some d, some h => some (d, h)
    | _, _ => none)).insertionSort
      (fun a b => a.1 < b.1 ∨ (a.1 = b.1 ∧ a.2 ≤ b.2))

/-- The rows of the (d, h) group of line 30's `groupby`. -/
def hourlyGroup (l : List CleanRecord) (d h : Nat) : List CleanRecord :=
  l.filter fun r => decide (r.date = some d ∧ hourOf r = some h)

/-- Line 30: `hourly_totals = df.groupby(["date", "hour"],
as_index=False)[["grid_purchase", "grid_feedin"]].sum()`. -/
def hourly_totals (l : List CleanRecord) : List HourlyBucket :=
  (hourlyKeys l).map fun k =>
    { date := some k.1
      hour := some k.2
      grid_purchase := optSum ((hourlyGroup l k.1 k.2).map (·.grid_purchase))
      grid_feedin := optSum ((hourlyGroup l k.1 k.2).map (·.grid_feedin)) }

/-- The boolean of line 33's `transform(lambda x: x == x.max())` for one
bucket `b`: its `grid_feedin` total compared with the maximum of the
`grid_feedin` totals over the buckets of the same `date`. -/
def peakFlag (hb : List HourlyBucket) (b : HourlyBucket) : Bool :=
  seriesMax ((hb.filter fun c => decide (c.date = b.date)).map (·.grid_feedin))
    == some b.grid_feedin

/-- Line 33: `hourly_totals["is_peak_feed_in_hour"] =
hourly_totals.groupby("date")["grid_feedin"].transform(lambda x: x ==
x.max())`. -/
def hourlyTotalsWithPeak (l : List CleanRecord) : List PeakBucket :=
  (hourly_totals l).map fun b =>
    { date := b.date
      hour := b.hour
      grid_purchase := b.grid_purchase
      grid_feedin := b.grid_feedin
      is_peak_feed_in_hour := peakFlag (hourly_totals l) b }

/-- The serial keys of line 36's `groupby('serial')`: present serials only
(`dropna=True` default), in ascending order (`sort=True` default). -/
def serialKeys (l : List CleanRecord) : List String :=
  (dedupFirst (l.filterMap (·.serial))).insertionSort (fun a b => a ≤ b)

/-- The rows of one serial's group in line 36. -/
def serialGroup (l : List CleanRecord) (s : String) : List CleanRecord :=
  l.filter fun r => decide (r.serial = some s)

/-- The descending-`grid_purchase` order used by line 36's
`sort_values(by='grid_purchase', ascending=False)`. -/
def purchaseGe (a b : SerialRow) : Prop :=
  b.grid_purchase ≤ a.grid_purchase

instance : DecidableRel purchaseGe := fun a b =>
  inferInstanceAs (Decidable (b.grid_purchase ≤ a.grid_purchase))

instance : IsTotal SerialRow purchaseGe :=
  ⟨fun a b => (le_total b.grid_purchase a.grid_purchase).imp id id⟩

instance : IsTrans SerialRow purchaseGe :=
  ⟨fun _ _ _ hab hbc => le_trans hbc hab⟩

/-- Line 36: `summary = df.groupby('serial')[["grid_purchase",
"grid_feedin"]].sum().sort_values(by='grid_purchase',
ascending=False)`. -/
def summary (l : List CleanRecord) : List SerialRow :=
  (((serialKeys l).map fun s =>
    { serial := s
      grid_purchase := optSum ((serialGroup l s).map (·.grid_purchase))
      grid_feedin := optSum ((serialGroup l s).map (·.grid_feedin))
      : SerialRow }).insertionSort purchaseGe)

/-! ### Sample data for concrete witnesses -/

/-- 05:00 on day 0. -/
def ts5 : Timestamp := ⟨0, 5, 0⟩

/-- 06:00 on day 0. -/
def ts6 : Timestamp := ⟨0, 6, 0⟩

/-- A fully populated record: serial S1, day 0 hour 5, values 10/3/10. -/
def recA : CleanRecord := ⟨some "S1", some ts5, some 0, some 10, some 3, some 10⟩

/-- Serial S2, day 0 hour 6, purchase 7, feed-in 1, consumption missing. -/
def recB : CleanRecord := ⟨some "S2", some ts6, some 0, some 7, some 1, none⟩

/-- Two of the three energy fields missing. -/
def recTwoMissing : CleanRecord := ⟨some "S2", none, some 1, some 4, none, none⟩

/-- All three energy fields missing. -/
def recAllMissing : CleanRecord := ⟨some "S1", some ts6, some 0, none, none, none⟩

/-- Present purchase value, missing `date`. -/
def recNoDate : CleanRecord := ⟨some "S1", some ts5, none, some 5, none, none⟩

/-- Present purchase value, missing `grid_feedin`. -/
def recNoFeedin : CleanRecord := ⟨some "S1", some ts5, some 0, some 5, none, none⟩

/-- Present purchase value, missing `serial`. -/
def recNoSerial : CleanRecord := ⟨none, some ts5, some 0, some 7, none, none⟩

/-- Two records sharing the (day 0, hour 5) key, one with a missing
feed-in value. -/
def sampleHourlyInput : List CleanRecord := [recA, recNoFeedin]

/-- The single bucket produced by `sampleHourlyInput`: purchase 10 + 5,
feed-in 3 + (missing, counted as 0). -/
def sampleBucket : HourlyBucket := ⟨some 0, some 5, 15, 3⟩

/-- Records over two hours of one date, so the peak flag has a real
partition to rank. -/
def samplePeakInput : List CleanRecord := [recA, recB, recNoFeedin]

/-- The hour-5 bucket of `samplePeakInput`, flagged as the peak feed-in
hour of day 0. -/
def samplePeakBucket : PeakBucket := ⟨some 0, some 5, 15, 3, true⟩

/-- The bucket produced by `[recNoFeedin]`: its only record has a missing
feed-in, so the feed-in total collapses to 0. -/
def sampleZeroBucket : HourlyBucket := ⟨some 0, some 5, 5, 0⟩

/-- A parser set on which every cell fails to parse. -/
def noParse : Parsers := ⟨fun _ => none, fun _ => none, fun _ => none⟩

/-- A raw record whose payload cells are all unparseable. -/
def rawBad : RawRecord := ⟨some "S1", "not-a-time", "not-a-date", "abc", "3,5", ""⟩

/-! ### Helper lemmas -/

theorem foldl_max_mem (tail : List ℤ) : ∀ v : ℤ, tail.foldl max v ∈ v :: tail := by
  induction tail with
  | nil => intro v; rw [List.foldl_nil]; exact List.mem_singleton.mpr rfl
  | cons t ts ih =>
    intro v
    rw [List.foldl_cons]
    rcases List.mem_cons.mp (ih (max v t)) with h | h
    · rcases max_choice v t with hm | hm
      · rw [h, hm]; exact List.mem_cons_self _ _
      · rw [h, hm]; exact List.mem_cons_of_mem _ (List.mem_cons_self _ _)
    · exact List.mem_cons_of_mem _ (List.mem_cons_of_mem _ h)

theorem le_foldl_max (tail : List ℤ) :
    ∀ v : ℤ, ∀ y ∈ v :: tail, y ≤ tail.foldl max v := by
  induction tail with
  | nil =>
    intro v y hy
    rw [List.foldl_nil]
    exact le_of_eq (List.mem_singleton.mp hy)
  | cons t ts ih =>
    intro v y hy
    rw [List.foldl_cons]
    rcases List.mem_cons.mp hy with rfl | hy'
    · exact le_trans (le_max_left y t) (ih (max y t) _ (List.mem_cons_self _ _))
    · rcases List.mem_cons.mp hy' with rfl | hy''
      · exact le_trans (le_max_right v y) (ih (max v y) _ (List.mem_cons_self _ _))
      · exact ih (max v t) y (List.mem_cons_of_mem _ hy'')

theorem seriesMax_eq_some_iff (vs : List ℤ) (m : ℤ) :
    seriesMax vs = some m ↔ m ∈ vs ∧ ∀ y ∈ vs, y ≤ m := by
  cases vs with
  | nil => simp [seriesMax]
  | cons v tail =>
    rw [seriesMax]
    constructor
    · intro h
      have hm : tail.foldl max v = m := Option.some.inj h
      subst hm
      exact ⟨foldl_max_mem tail v, le_foldl_max tail v⟩
    · rintro ⟨hmem, hub⟩
      have h1 : tail.foldl max v ≤ m := hub _ (foldl_max_mem tail v)
      have h2 : m ≤ tail.foldl max v := le_foldl_max tail v m hmem
      rw [le_antisymm h1 h2]

theorem optSum_eq_zero (vals : List (Option ℤ)) (h : ∀ v ∈ vals, v = none) :
    optSum vals = 0 := by
  rw [optSum, show List.filterMap id vals = [] from
    List.filterMap_eq_nil_iff.mpr h, List.sum_nil]

theorem filterMap_filter_of_isSome {α β : Type} (p : α → Bool) (f : α → Option β)
    (hpf : ∀ a, (f a).isSome = true → p a = true) (l : List α) :
    (l.filter p).filterMap f = l.filterMap f := by
  induction l with
  | nil => rfl
  | cons a as ih =>
    by_cases hp : p a = true
    · rw [List.filter_cons_of_pos hp, List.filterMap_cons, List.filterMap_cons, ih]
    · have hf : f a = none := by
        cases hfa : f a with
        | none => rfl
        | some b => exact absurd (hpf a (by simp [hfa])) hp
      rw [List.filter_cons_of_neg hp, List.filterMap_cons, hf, ih]

theorem filter_filter_of_imp {α : Type} (p q : α → Bool)
    (hqp : ∀ a, q a = true → p a = true) (l : List α) :
    (l.filter p).filter q = l.filter q := by
  induction l with
  | nil => rfl
  | cons a as ih =>
    by_cases hp : p a = true
    · rw [List.filter_cons_of_pos hp, List.filter_cons, List.filter_cons, ih]
    · have hq : q a = false := by
        cases hqa : q a with
        | false => rfl
        | true => exact absurd (hqp a hqa) hp
      rw [List.filter_cons_of_neg hp, List.filter_cons_of_neg (by simp [hq]), ih]

/-! ### The claims -/

/-- C4: `drop_duplicates` (line 21) implements exactly the keep-first
deduplication policy: its output equals `keepFirstSpec`, the positional
spec that keeps a record exactly when no field-for-field identical record
occurs at an earlier position (so the first occurrence of each record is
the one that survives, in input order).  In addition the output is a
subsequence of the input (relative order of survivors preserved), keeps
exactly the records occurring in the input, and contains no two identical
records; the final Clean Record set, a filtering of this output, is
likewise duplicate-free. -/
theorem dedup_correct (l : List CleanRecord) :
    drop_duplicates l = keepFirstSpec l ∧
    (drop_duplicates l).Sublist l ∧
    (∀ r : CleanRecord, r ∈ drop_duplicates l ↔ r ∈ l) ∧
    (drop_duplicates l).Nodup ∧
    (cleaner l).Nodup :=
  ⟨dedupFirst_eq_keepFirstSpec l, dedupFirst_sublist l,
    fun r => mem_dedupFirst r l, dedupFirst_nodup l,
    List.Nodup.filter _ (dedupFirst_nodup l)⟩

/-- C4 witness: on a list with an exact duplicate, the output agrees with
the positional keep-first spec — concretely `[recA, recTwoMissing]`, the
first occurrence of `recA` surviving — and is duplicate-free. -/
theorem dedup_correct_witness :
    drop_duplicates [recA, recA, recTwoMissing]
      = keepFirstSpec [recA, recA, recTwoMissing] ∧
    keepFirstSpec [recA, recA, recTwoMissing] = [recA, recTwoMissing] ∧
    (drop_duplicates [recA, recA, recTwoMissing]).Nodup :=
  ⟨(dedup_correct [recA, recA, recTwoMissing]).1, by decide,
    (dedup_correct [recA, recA, recTwoMissing]).2.2.2.1⟩

/-- C5: every record in the Cleaner's output has at least one present
energy field, and the all-missing filter removes nothing else: a
deduplicated record with at least one present energy field is retained. -/
theorem all_missing_filter (l : List CleanRecord) :
    (∀ r ∈ cleaner l,
      r.grid_purchase ≠ none ∨ r.grid_feedin ≠ none ∨
        r.direct_consumption ≠ none) ∧
    (∀ r ∈ drop_duplicates l,
      (r.grid_purchase ≠ none ∨ r.grid_feedin ≠ none ∨
        r.direct_consumption ≠ none) → r ∈ cleaner l) := by
  constructor
  · intro r hr
    have h := (List.mem_filter.mp hr).2
    simp only [hasEnergy, Bool.or_eq_true, Option.isSome_iff_ne_none] at h
    tauto
  · intro r hr he
    refine List.mem_filter.mpr ⟨hr, ?_⟩
    simp only [hasEnergy, Bool.or_eq_true, Option.isSome_iff_ne_none]
    tauto

/-- C5 witness: a record missing two of the three energy fields survives
the Cleaner. -/
theorem all_missing_filter_witness :
    recTwoMissing ∈ cleaner [recTwoMissing, recAllMissing] :=
  (all_missing_filter [recTwoMissing, recAllMissing]).2 recTwoMissing
    (by decide) (by decide)

/-- C7: the Cleaner (deduplication then the all-missing energy filter) is
idempotent: applied to its own output it changes nothing. -/
theorem cleaner_idempotent (l : List CleanRecord) :
    cleaner (cleaner l) = cleaner l := by
  have hnd : (cleaner l).Nodup := List.Nodup.filter _ (dedupFirst_nodup l)
  have h1 : drop_duplicates (cleaner l) = cleaner l := dedupFirst_eq_self _ hnd
  show dropAllMissing (drop_duplicates (cleaner l)) = cleaner l
  rw [h1]
  exact List.filter_eq_self.mpr fun r hr => (List.mem_filter.mp hr).2

/-- C7 witness: concrete instance of the idempotence, on an input with
both a duplicate and an all-missing row. -/
theorem cleaner_idempotent_witness :
    cleaner (cleaner [recA, recA, recAllMissing]) =
      cleaner [recA, recA, recAllMissing] :=
  cleaner_idempotent [recA, recA, recAllMissing]

/-- C6: the Type Normalizer (lines 10-18) is a total map: it outputs
exactly one Clean-Record candidate per Raw Record (never raising, never
dropping a record), and each coerced field is exactly the tolerant
parser's result — the missing marker whenever the cell is unparseable. -/
theorem normalizer_no_drop (p : Parsers) (rs : List RawRecord) :
    (normalize p rs).length = rs.length ∧
    ∀ r ∈ rs, normalizeRecord p r ∈ normalize p rs ∧
      (normalizeRecord p r).grid_purchase = p.toNumeric r.grid_purchase ∧
      (normalizeRecord p r).grid_feedin = p.toNumeric r.grid_feedin ∧
      (normalizeRecord p r).direct_consumption =
        p.toNumeric r.direct_consumption ∧
      (normalizeRecord p r).timestamp = p.toDatetime r.timestamp ∧
      (normalizeRecord p r).date = p.toDate r.date :=
  ⟨by simp [normalize],
    fun r hr => ⟨List.mem_map_of_mem _ hr, rfl, rfl, rfl, rfl, rfl⟩⟩

/-- C6 witness: a record every one of whose cells fails to parse still
comes out of the normalizer (as one record, with missing fields). -/
theorem normalizer_no_drop_witness :
    (normalize noParse [rawBad]).length = 1 ∧
    (normalizeRecord noParse rawBad).grid_purchase = none :=
  ⟨(normalizer_no_drop noParse [rawBad]).1,
    ((normalizer_no_drop noParse [rawBad]).2 rawBad (by decide)).2.1⟩

/-- C8: the Serial Summary is sorted non-increasing by `grid_purchase`
total: in every pair of consecutive rows, the earlier row's total is at
least the later row's. -/
theorem summary_sorted_desc (l : List CleanRecord) :
    (summary l).Chain' fun a b => b.grid_purchase ≤ a.grid_purchase :=
  List.Pairwise.chain' (List.sorted_insertionSort purchaseGe _)

/-- C8 witness: concrete instance of the descending summary order on a
two-serial input. -/
theorem summary_sorted_desc_witness :
    (summary [recB, recA]).Chain' fun a b => b.grid_purchase ≤ a.grid_purchase :=
  summary_sorted_desc [recB, recA]

/-- C10: a record with a missing `serial` contributes to no Serial
Summary row: removing all such records leaves the summary unchanged
(line 36's `groupby('serial')` keeps its pandas default `dropna=True`). -/
theorem missing_serial_excluded (l : List CleanRecord) :
    summary (l.filter fun r => r.serial.isSome) = summary l := by
  have hkeys : serialKeys (l.filter fun r => r.serial.isSome) = serialKeys l := by
    rw [serialKeys, serialKeys,
      filterMap_filter_of_isSome (fun r => r.serial.isSome) (fun r => r.serial)
        (fun a ha => ha) l]
  have hgrp : ∀ s, serialGroup (l.filter fun r => r.serial.isSome) s
      = serialGroup l s := by
    intro s
    rw [serialGroup, serialGroup,
      filter_filter_of_imp (fun r => r.serial.isSome)
        (fun r => decide (r.serial = some s)) ?_ l]
    intro a ha
    have ha' : decide (a.serial = some s) = true := ha
    show a.serial.isSome = true
    rw [of_decide_eq_true ha']
    rfl
  rw [summary, summary, hkeys]
  congr 1
  apply List.map_congr_left
  intro s _
  rw [hgrp s]

/-- C10 witness: on an input whose only record has a missing serial,
filtering that record away leaves the (empty) summary unchanged. -/
theorem missing_serial_excluded_witness :
    summary ([recNoSerial].filter fun r => r.serial.isSome)
      = summary [recNoSerial] :=
  missing_serial_excluded [recNoSerial]

/-- C1 counterexample: a record with a present `grid_purchase` but a
missing `date` produces no hourly bucket at all — the aggregator's output
on it is empty, so it does not appear as a group keyed by the missing
marker (it is silently dropped, contrary to the claim). -/
theorem hourly_missing_key_cex :
    recNoDate.date = none ∧ recNoDate.grid_purchase = some 5 ∧
    hourly_totals [recNoDate] = [] :=
  ⟨rfl, rfl, rfl⟩

/-- C1 (amended): line 30's `groupby(["date", "hour"])` keeps its pandas
default `dropna=True`: records with a missing `date` or `hour` are
silently excluded from the hourly aggregation (removing them beforehand
changes nothing), and every emitted bucket has a fully present key. -/
theorem hourly_missing_key_dropped (l : List CleanRecord) :
    hourly_totals (l.filter fun r => r.date.isSome && (hourOf r).isSome)
      = hourly_totals l ∧
    ∀ b ∈ hourly_totals l, b.date ≠ none ∧ b.hour ≠ none := by
  constructor
  · have hkeys : hourlyKeys
        (l.filter fun r => r.date.isSome && (hourOf r).isSome)
        = hourlyKeys l := by
      rw [hourlyKeys, hourlyKeys,
        filterMap_filter_of_isSome (fun r => r.date.isSome && (hourOf r).isSome)
          (fun r => match r.date, hourOf r with
            | some d, some h => some (d, h)
            | _, _ => none) ?_ l]
      intro a ha
      have ha' : (match a.date, hourOf a with
        | some d, some h => some (d, h)
        | _, _ => none).isSome = true := ha
      show (a.date.isSome && (hourOf a).isSome) = true
      cases hd : a.date with
      | none => rw [hd] at ha'; simp at ha'
      | some d =>
        cases hh : hourOf a with
        | none => rw [hd, hh] at ha'; simp at ha'
        | some h => simp [hd, hh]
    have hgrp : ∀ d h, hourlyGroup
        (l.filter fun r => r.date.isSome && (hourOf r).isSome) d h
        = hourlyGroup l d h := by
      intro d h
      rw [hourlyGroup, hourlyGroup,
        filter_filter_of_imp (fun r => r.date.isSome && (hourOf r).isSome)
          (fun r => decide (r.date = some d ∧ hourOf r = some h)) ?_ l]
      intro a ha
      have ha' : decide (a.date = some d ∧ hourOf a = some h) = true := ha
      show (a.date.isSome && (hourOf a).isSome) = true
      obtain ⟨h1, h2⟩ := of_decide_eq_true ha'
      rw [h1, h2]
      rfl
    rw [hourly_totals, hourly_totals, hkeys]
    apply List.map_congr_left
    intro k _
    rw [hgrp k.1 k.2]
  · intro b hb
    rcases List.mem_map.mp hb with ⟨k, _, rfl⟩
    exact ⟨Option.some_ne_none _, Option.some_ne_none _⟩

/-- C1 (amended) witness: on an input holding one keyed and one
missing-date record, dropping the missing-date record beforehand does not
change the hourly output. -/
theorem hourly_missing_key_dropped_witness :
    hourly_totals ([recA, recNoDate].filter fun r =>
        r.date.isSome && (hourOf r).isSome)
      = hourly_totals [recA, recNoDate] :=
  (hourly_missing_key_dropped [recA, recNoDate]).1

/-- C3: each Hourly Bucket's `grid_purchase` (and likewise `grid_feedin`)
total is the null-skipping sum — missing values contributing zero, via
`optSum` — of that field over exactly the Clean Records sharing the
bucket's (`date`, `hour`) key. -/
theorem hourly_sum_correct (l : List CleanRecord) (b : HourlyBucket)
    (hb : b ∈ hourly_totals l) :
    b.grid_purchase = optSum ((l.filter fun r =>
      decide (r.date = b.date ∧ hourOf r = b.hour)).map (·.grid_purchase)) ∧
    b.grid_feedin = optSum ((l.filter fun r =>
      decide (r.date = b.date ∧ hourOf r = b.hour)).map (·.grid_feedin)) := by
  rcases List.mem_map.mp hb with ⟨k, _, rfl⟩
  exact ⟨rfl, rfl⟩

/-- C3 witness: the concrete bucket of `sampleHourlyInput` carries the
sums 15 = 10 + 5 and 3 = 3 + (missing → 0) over its two key-sharing
records. -/
theorem hourly_sum_correct_witness :
    sampleBucket.grid_purchase = optSum ((sampleHourlyInput.filter fun r =>
      decide (r.date = sampleBucket.date ∧ hourOf r = sampleBucket.hour)).map
        (·.grid_purchase)) ∧
    sampleBucket.grid_feedin = optSum ((sampleHourlyInput.filter fun r =>
      decide (r.date = sampleBucket.date ∧ hourOf r = sampleBucket.hour)).map
        (·.grid_feedin)) :=
  hourly_sum_correct sampleHourlyInput sampleBucket (by decide)

/-- C2: within the hourly output, a bucket's `is_peak_feed_in_hour` flag
is true exactly when its `grid_feedin` total is greatest among the
buckets of its `date` partition — all tied maxima get the flag, never a
single winner. -/
theorem peak_flag_correct (l : List CleanRecord) (b : PeakBucket)
    (hb : b ∈ hourlyTotalsWithPeak l) :
    b.is_peak_feed_in_hour = true ↔
      ∀ c ∈ hourlyTotalsWithPeak l, c.date = b.date →
        c.grid_feedin ≤ b.grid_feedin := by
  rcases List.mem_map.mp hb with ⟨b0, hb0, rfl⟩
  dsimp only
  rw [peakFlag, beq_iff_eq, seriesMax_eq_some_iff]
  have hmem : b0.grid_feedin ∈
      ((hourly_totals l).filter fun c => decide (c.date = b0.date)).map
        (·.grid_feedin) :=
    List.mem_map_of_mem _ (List.mem_filter.mpr ⟨hb0, by simp⟩)
  constructor
  · rintro ⟨-, hub⟩ c hc hdate
    rcases List.mem_map.mp hc with ⟨c0, hc0, rfl⟩
    dsimp only at hdate ⊢
    exact hub _ (List.mem_map_of_mem _ (List.mem_filter.mpr ⟨hc0, by simp [hdate]⟩))
  · intro h
    refine ⟨hmem, ?_⟩
    intro y hy
    rcases List.mem_map.mp hy with ⟨c0, hc0f, rfl⟩
    obtain ⟨hc0, hd⟩ := List.mem_filter.mp hc0f
    exact h _ (List.mem_map_of_mem _ hc0) (of_decide_eq_true hd)

/-- C2 witness: in `samplePeakInput`, day 0's hour-5 bucket holds the
maximal feed-in total of its date partition, and the theorem's backward
direction yields its flag. -/
theorem peak_flag_correct_witness :
    samplePeakBucket.is_peak_feed_in_hour = true :=
  (peak_flag_correct samplePeakInput samplePeakBucket (by decide)).mpr
    (by decide)

/-- C9: when every record of a group carries a missing `grid_feedin`, the
group total for that field is exactly 0 — in the hourly buckets and in
the serial summary — so a zero total does not distinguish an all-missing
group from a genuinely all-zero one. -/
theorem all_missing_group_total_zero (l : List CleanRecord) :
    (∀ b ∈ hourly_totals l,
      (∀ r ∈ l, r.date = b.date → hourOf r = b.hour → r.grid_feedin = none) →
        b.grid_feedin = 0) ∧
    (∀ s ∈ summary l,
      (∀ r ∈ l, r.serial = some s.serial → r.grid_feedin = none) →
        s.grid_feedin = 0) := by
  constructor
  · intro b hb hmiss
    rcases List.mem_map.mp hb with ⟨k, _, rfl⟩
    dsimp only at hmiss ⊢
    apply optSum_eq_zero
    intro v hv
    rcases List.mem_map.mp hv with ⟨r, hr, rfl⟩
    obtain ⟨hrl, hcond⟩ := List.mem_filter.mp hr
    obtain ⟨hd, hh⟩ := of_decide_eq_true hcond
    exact hmiss r hrl hd hh
  · intro s hs hmiss
    rcases List.mem_map.mp ((List.mem_insertionSort _).mp hs) with ⟨key, _, rfl⟩
    dsimp only at hmiss ⊢
    apply optSum_eq_zero
    intro v hv
    rcases List.mem_map.mp hv with ⟨r, hr, rfl⟩
    obtain ⟨hrl, hcond⟩ := List.mem_filter.mp hr
    exact hmiss r hrl (of_decide_eq_true hcond)

/-- C9 witness: the bucket of `[recNoFeedin]`, whose one record has a
missing feed-in, gets feed-in total exactly 0. -/
theorem all_missing_group_total_zero_witness :
    sampleZeroBucket.grid_feedin = 0 :=
  (all_missing_group_total_zero [recNoFeedin]).1 sampleZeroBucket
    (by decide) (by decide)

end Pipline
